import Mathlib

/-!
Shallow embedding of the Instapaper article importer core
(`src/services/instapaperService.ts` and `src/services/apiClient.ts`).

Strings are modelled through their character lists; the JavaScript string
primitives used by the source (`trim`, `toLowerCase`, `split`, `includes`,
the `/^"|"$/g` replace and the `/^https?:\/\//` test) are given explicit
executable definitions.  Network effects are modelled by oracles for the
authenticate outcome and for each add-bookmark attempt, and every run
produces an explicit event trace (requests issued, sleeps, progress
callbacks) so that safety and temporal claims can be stated about it.
-/

namespace Insta

/-- JavaScript `String.prototype.trim` restricted to the ASCII whitespace
characters that occur in this development (space, tab, newline, carriage
return, vertical tab, form feed). -/
def isWsCh (c : Char) : Bool :=
  c == ' ' || c == '\t' || c == '\n' || c == '\r' || c == '\x0b' || c == '\x0c'

def jsTrim (s : String) : String :=
  ⟨((s.data.dropWhile isWsCh).reverse.dropWhile isWsCh).reverse⟩

/-- JavaScript `String.prototype.toLowerCase` on the ASCII range. -/
def jsToLower (s : String) : String :=
  ⟨s.data.map Char.toLower⟩

/-- JavaScript `String.prototype.split("\n")`: always at least one piece,
empty pieces kept. -/
def splitNlAux : List Char → List Char → List String
  | [], acc => [⟨acc.reverse⟩]
  | c :: rest, acc =>
    if c == '\n' then ⟨acc.reverse⟩ :: splitNlAux rest []
    else splitNlAux rest (c :: acc)

def jsSplitNl (s : String) : List String := splitNlAux s.data []

def startsWithL : List Char → List Char → Bool
  | [], _ => true
  | _ :: _, [] => false
  | p :: ps, c :: cs => p == c && startsWithL ps cs

/-- JavaScript `String.prototype.includes`. -/
def infixOfL (pat : List Char) : List Char → Bool
  | [] => startsWithL pat []
  | c :: rest => startsWithL pat (c :: rest) || infixOfL pat rest

def jsIncludes (s pat : String) : Bool := infixOfL pat.data s.data

/-- JavaScript `v.replace(/^"|"$/g, '')`: removes one leading and one
trailing double-quote character. -/
def stripEdgeQuotes (s : String) : String :=
  let l := s.data
  let l1 := match l with
    | '"' :: r => r
    | _ => l
  let l2 := match l1.reverse with
    | '"' :: r => r.reverse
    | _ => l1
  ⟨l2⟩

/-- The `norm` helper of `extractTitleUrlStatus`:
`v ? v.replace(/^"|"$/g, '').trim() : ''`. -/
def normVal (v : String) : String :=
  if v == "" then "" else jsTrim (stripEdgeQuotes v)

/-- The test `/^https?:\/\//.test(values[i].trim())`. -/
def isUrlToken (s : String) : Bool :=
  let t := (jsTrim s).data
  startsWithL ("http://".data) t || startsWithL ("https://".data) t

/-- The `CSVRow` type of `src/types/index.ts`. -/
structure CSVRow where
  title : String
  url : String
  time_added : String
  tags : String
  status : String
deriving DecidableEq, Repr

/-- The quote-aware tokenizer of `parseCSV`: a `"` toggles the
inside-quotes mode (and is not emitted), a `,` outside quotes ends the
current field, every other character is appended to the current field. -/
def splitQuotedAux : List Char → List Char → Bool → List String
  | [], cur, _ => [⟨cur.reverse⟩]
  | c :: rest, cur, inside =>
    if c == '"' then splitQuotedAux rest cur (!inside)
    else if c == ',' && !inside then ⟨cur.reverse⟩ :: splitQuotedAux rest [] inside
    else splitQuotedAux rest (c :: cur) inside

def splitQuoted (line : String) : List String := splitQuotedAux line.data [] false

/-- The first loop of `extractTitleUrlStatus`: index and normalized value
of the first token matching the URL pattern. -/
def findUrlIdx : List String → Nat → Option (Nat × String)
  | [], _ => none
  | v :: rest, i =>
    if isUrlToken v then some (i, normVal v) else findUrlIdx rest (i + 1)

def isStatusKeyword (s : String) : Bool :=
  s == "archive" || s == "archived" || s == "unread"

/-- The second loop of `extractTitleUrlStatus`: first non-URL token whose
normalized lowercase value is a status keyword; yields the normalized
(original-case) value. -/
def findStatusVal (urlIdx : Option Nat) : List String → Nat → Option String
  | [], _ => none
  | v :: rest, i =>
    if urlIdx != some i && isStatusKeyword (jsToLower (normVal v)) then some (normVal v)
    else findStatusVal urlIdx rest (i + 1)

structure Extracted where
  title : String
  url : String
  status : String
deriving DecidableEq, Repr

/-- `extractTitleUrlStatus` of `instapaperService.ts`: the title is the
constant empty string; the url is the first token matching
`/^https?:\/\//`; the status is the first keyword token, or, failing
that, the other token of a two-token line containing a URL. -/
def extractTitleUrlStatus (values : List String) : Extracted :=
  let title := ""
  let urlInfo := findUrlIdx values 0
  let url := match urlInfo with
    | some p => p.2
    | none => ""
  let urlIdx : Option Nat := urlInfo.map Prod.fst
  let status := match findStatusVal urlIdx values 0 with
    | some s => s
    | none =>
      if values.length == 2 && urlIdx.isSome then
        match urlIdx with
        | some 0 => normVal (values.getD 1 "")
        | _ => normVal (values.getD 0 "")
      else ""
  ⟨title, url, status⟩

/-- One iteration of the `parseCSV` line loop: blank lines and lines with
no URL token yield no row. -/
def parseLine (line : String) : Option CSVRow :=
  let l := jsTrim line
  if l == "" then none
  else
    let e := extractTitleUrlStatus (splitQuoted l)
    if e.url == "" then none
    else some ⟨e.title, e.url, "", "", e.status⟩

/-- `parseCSV` of `instapaperService.ts`. -/
def parseCSV (csvContent : String) : List CSVRow :=
  let lines := jsSplitNl csvContent
  let startIndex := if jsIncludes (jsToLower (lines.headD "")) "title,url" then 1 else 0
  (lines.drop startIndex).filterMap parseLine

def isAlphaCh (c : Char) : Bool := ('a' ≤ c && c ≤ 'z') || ('A' ≤ c && c ≤ 'Z')

def isDigitCh (c : Char) : Bool := '0' ≤ c && c ≤ '9'

def isSchemeCh (c : Char) : Bool := isAlphaCh c || isDigitCh c || c == '+' || c == '-' || c == '.'

def isC0OrSpace (c : Char) : Bool := c ≤ ' '

def isUrlTabNl (c : Char) : Bool := c == '\t' || c == '\n' || c == '\r'

def splitSchemeAux : List Char → List Char → Option (List Char × List Char)
  | [], _ => none
  | c :: rest, acc =>
    if c == ':' then some (acc.reverse, rest)
    else if isSchemeCh c then splitSchemeAux rest (c.toLower :: acc)
    else none

/-- Scheme parsing of the WHATWG URL parser: an ASCII alpha followed by
scheme characters up to a colon; yields the lowercased scheme and the
remainder after the colon. -/
def splitScheme : List Char → Option (List Char × List Char)
  | [] => none
  | c :: rest => if isAlphaCh c then splitSchemeAux rest [c.toLower] else none

def isSpecialScheme (s : List Char) : Bool :=
  s == "http".data || s == "https".data || s == "ws".data || s == "wss".data || s == "ftp".data

def isSlashCh (c : Char) : Bool := c == '/' || c == '\\'

def isAuthorityEnd (c : Char) : Bool := c == '/' || c == '\\' || c == '?' || c == '#'

/-- Forbidden host (and forbidden domain) code points of the WHATWG URL
standard, as far as they matter here; `[` and `]` are included, which
declines IPv6 literals (see `isValidUrl`). -/
def forbiddenHostCh (c : Char) : Bool :=
  c == '\x00' || c == '\t' || c == '\n' || c == '\r' || c == ' ' || c == '#' || c == '/' ||
  c == ':' || c == '<' || c == '>' || c == '?' || c == '@' || c == '[' || c == '\\' ||
  c == ']' || c == '^' || c == '|' || c == '%'

/-- Model of the JavaScript `new URL(url)` constructor succeeding with no
base URL, as used by `isValidUrl` in `instapaperService.ts`:
leading/trailing C0-control-or-space is stripped and interior
tab/newline removed; the input must have a scheme; for the special
schemes (http, https, ws, wss, ftp) the authority is taken after the
leading slashes up to the first `/`, `\`, `?` or `#`, the host is the
part after the last `@` and before the first `:`, and must be nonempty
with no forbidden host code point and a digits-only (possibly empty)
port; other schemes take an opaque path and always parse.  Not
modelled: IPv6 literals, IPv4-shaped numeric hosts, percent-decoding
and IDNA — every URL this development evaluates has an ordinary ASCII
named host. -/
def isValidUrl (url : String) : Bool :=
  let cleaned :=
    (((url.data.dropWhile isC0OrSpace).reverse.dropWhile isC0OrSpace).reverse).filter
      (fun c => !isUrlTabNl c)
  match splitScheme cleaned with
  | none => false
  | some (scheme, rest) =>
    if scheme == "file".data then true
    else if isSpecialScheme scheme then
      let auth := (rest.dropWhile isSlashCh).takeWhile (fun c => !isAuthorityEnd c)
      let hp := (auth.reverse.takeWhile (fun c => c != '@')).reverse
      let host := hp.takeWhile (fun c => c != ':')
      let port := (hp.dropWhile (fun c => c != ':')).drop 1
      !host.isEmpty && host.all (fun c => !forbiddenHostCh c) && port.all isDigitCh
    else true

/-- The validation failure message built by `validateCSV`. -/
def invalidUrlMsg (oneBasedRow : Nat) (url : String) : String :=
  "Row " ++ toString oneBasedRow ++ " contains an invalid URL: \"" ++ url ++ "\""

def validateGo : List CSVRow → Nat → Bool × Option String
  | [], _ => (true, none)
  | r :: rest, i =>
    if r.url == "" || !isValidUrl r.url then (false, some (invalidUrlMsg (i + 1) r.url))
    else validateGo rest (i + 1)

/-- `validateCSV` of `instapaperService.ts`: empty input is invalid,
otherwise the first row with an empty or unparsable URL fails the whole
input with a 1-indexed message. -/
def validateCSV (rows : List CSVRow) : Bool × Option String :=
  if rows.length == 0 then (false, some "CSV file is empty") else validateGo rows 0

/-- A row the validator must reject: empty url or url that fails URL
parsing (this restates the validation condition of the spec, for use in
fail-fast statements). -/
def invalidRow (r : CSVRow) : Bool := r.url == "" || !isValidUrl r.url

/-- Position (0-based) and content of the first invalid row. -/
def firstInvalid : List CSVRow → Nat → Option (Nat × CSVRow)
  | [], _ => none
  | r :: rest, i => if invalidRow r then some (i, r) else firstInvalid rest (i + 1)

/-- The token pair stored in the module-level `authTokens` slot of
`apiClient.ts`. -/
structure Tokens where
  token : String
  tokenSecret : String
deriving DecidableEq, Repr

/-- Outcome of one `POST /add` attempt as seen by `addArticleWithRetry`:
either a 2xx response (whose body has `success === true` or not), or a
thrown error carrying the HTTP status of the response when there is one
(`error.response?.status`, `none` for network or non-HTTP errors) and
the message the catch block extracts. -/
inductive AddOutcome where
  | ok (successField : Bool)
  | err (status : Option Nat) (msg : String)
deriving DecidableEq, Repr

/-- Fate of one row of the import loop: `normal` processes the row
through `addArticleWithRetry` with the given per-attempt outcomes;
`throws` models an unexpected exception at the start of the row body,
landing in the per-row catch block. -/
inductive RowOutcome where
  | normal (attempts : Nat → AddOutcome)
  | throws

/-- Observable events of a run: requests issued to the backend proxy,
pacing sleeps (milliseconds), and progress callback invocations. -/
inductive Event where
  | authReq
  | addReq (url : String)
  | sleepEv (ms : ℚ)
  | progressEv (current total : Nat)
deriving DecidableEq, Repr

def isAddReqB : Event → Bool
  | .addReq _ => true
  | _ => false

/-- A request to the backend proxy: the authenticate call or an
add-bookmark call. -/
def isProxyReq : Event → Bool
  | .authReq => true
  | .addReq _ => true
  | _ => false

/-- Number of add-bookmark requests of a trace. -/
def countAddReq (evs : List Event) : Nat := (evs.filter isAddReqB).length

def progressOf : Event → Option (Nat × Nat)
  | .progressEv c t => some (c, t)
  | _ => none

/-- The (current, total) arguments of the progress callbacks of a trace,
in order. -/
def progressPairs (evs : List Event) : List (Nat × Nat) := evs.filterMap progressOf

structure RateLimitConfig where
  initialDelay : ℚ
  maxDelay : ℚ
  batchSize : Nat
  batchDelay : ℚ
  maxRetries : Nat
  backoffMultiplier : ℚ

/-- `RATE_LIMIT_CONFIG` of `apiClient.ts`. -/
def RATE_LIMIT_CONFIG : RateLimitConfig :=
  { initialDelay := 150, maxDelay := 5000, batchSize := 25, batchDelay := 2000,
    maxRetries := 3, backoffMultiplier := 2 }

/-- The retry condition `statusCode === 429 || statusCode >= 500`
(`undefined >= 500` is false in JavaScript). -/
def isTransientStatus : Option Nat → Bool
  | some s => s == 429 || decide (500 ≤ s)
  | none => false

/-- Return shape of `addArticleWithRetry`. -/
structure AddResult where
  success : Bool
  error : Option String
deriving DecidableEq, Repr

/-- Recursion core of `addArticleWithRetry`.  The source guards the
recursive call with `retryCount < maxRetries`; here that bound is
carried as the countdown `remaining = maxRetries - retryCount`
(`0 < remaining` iff `retryCount < maxRetries` under the invariant
maintained by `addArticleWithRetry`, which always passes
`maxRetries - retryCount`), making the recursion structural and the
definition computable by kernel reduction. -/
def addGo (tokens : Option Tokens) (attempts : Nat → AddOutcome) (article : CSVRow) :
    Nat → Nat → AddResult × List Event
  | 0, retryCount =>
    match tokens with
    | none => ({ success := false, error := some "No auth tokens available" }, [])
    | some _ =>
      match attempts retryCount with
      | .ok b => ({ success := b, error := none }, [.addReq article.url])
      | .err _ msg => ({ success := false, error := some msg }, [.addReq article.url])
  | r + 1, retryCount =>
    match tokens with
    | none => ({ success := false, error := some "No auth tokens available" }, [])
    | some _ =>
      match attempts retryCount with
      | .ok b => ({ success := b, error := none }, [.addReq article.url])
      | .err status msg =>
        if isTransientStatus status then
          let backoffDelay :=
            min (RATE_LIMIT_CONFIG.initialDelay *
              RATE_LIMIT_CONFIG.backoffMultiplier ^ retryCount) RATE_LIMIT_CONFIG.maxDelay
          let r1 := addGo tokens attempts article r (retryCount + 1)
          (r1.1, .addReq article.url :: .sleepEv backoffDelay :: r1.2)
        else ({ success := false, error := some msg }, [.addReq article.url])

/-- `addArticleWithRetry` of `apiClient.ts`, with its event trace.  With
no stored tokens it fails locally without any request.  Otherwise the
attempt's request is issued; a thrown error with a transient status and
`retryCount < maxRetries` sleeps
`min(initialDelay * backoffMultiplier ^ retryCount, maxDelay)` and
recurses with `retryCount + 1`; any other error is a permanent failure
carrying the extracted message. -/
def addArticleWithRetry (tokens : Option Tokens) (attempts : Nat → AddOutcome)
    (article : CSVRow) (retryCount : Nat) : AddResult × List Event :=
  addGo tokens attempts article (RATE_LIMIT_CONFIG.maxRetries - retryCount) retryCount

/-- Mutable state of the import loop of `importArticles`. -/
structure EngineState where
  successCount : Nat
  failedCount : Nat
  failedArticles : List (String × String)
  currentDelay : ℚ
deriving DecidableEq, Repr

def initState : EngineState := ⟨0, 0, [], RATE_LIMIT_CONFIG.initialDelay⟩

/-- JavaScript `s || d` for the error string pushed with a failed row:
`undefined` and the empty string both fall back to the default. -/
def jsOrDefault (s : Option String) (d : String) : String :=
  match s with
  | some e => if e == "" then d else e
  | none => d

/-- The body of the innermost row loop of `importArticles`: throttled
progress callback, `addArticleWithRetry`, counter and adaptive-delay
update (`* 0.95` floored at `initialDelay` on success, `* 1.3` capped at
`maxDelay` on failure), and the inter-row sleep except after the last
row of a batch.  A `throws` outcome lands in the catch block: the row
counts as failed with error "Unexpected error" and nothing else
happens. -/
def processRow (tokens : Option Tokens) (hasProgress : Bool) (total : Nat)
    (outcome : RowOutcome) (article : CSVRow) (overallIndex : Nat) (isLastInBatch : Bool)
    (st : EngineState) : EngineState × List Event :=
  match outcome with
  | .throws =>
    ({ st with failedCount := st.failedCount + 1,
               failedArticles := st.failedArticles ++ [(article.url, "Unexpected error")] }, [])
  | .normal attempts =>
    let progEvents :=
      if hasProgress && (overallIndex % 5 == 0 || overallIndex == total - 1) then
        [Event.progressEv overallIndex total]
      else []
    let res := addArticleWithRetry tokens attempts article 0
    let st1 :=
      if res.1.success then
        { st with successCount := st.successCount + 1,
                  currentDelay := max RATE_LIMIT_CONFIG.initialDelay (st.currentDelay * (95 / 100)) }
      else
        { st with failedCount := st.failedCount + 1,
                  failedArticles :=
                    st.failedArticles ++ [(article.url, jsOrDefault res.1.error "Unknown error")],
                  currentDelay := min (st.currentDelay * (13 / 10)) RATE_LIMIT_CONFIG.maxDelay }
    let sleepEvents := if !isLastInBatch then [Event.sleepEv st1.currentDelay] else []
    (st1, progEvents ++ res.2 ++ sleepEvents)

/-- The row loop over one batch; `idx` is the overall index
`megaBatchIndex * 100 + batchIndex * 25 + i` of the first row of the
remaining list. -/
def processBatchRows (tokens : Option Tokens) (ro : Nat → RowOutcome) (hasProgress : Bool)
    (total : Nat) : List CSVRow → Nat → EngineState → EngineState × List Event
  | [], _, st => (st, [])
  | a :: rest, idx, st =>
    let r1 := processRow tokens hasProgress total (ro idx) a idx rest.isEmpty st
    let r2 := processBatchRows tokens ro hasProgress total rest (idx + 1) r1.1
    (r2.1, r1.2 ++ r2.2)

/-- The `slice`-based chunking loops of `importArticles`, with an
explicit fuel argument for termination; `chunkList n l` with `0 < n`
computes the JavaScript chunks. -/
def chunkAux (n : Nat) : Nat → List CSVRow → List (List CSVRow)
  | 0, _ => []
  | _, [] => []
  | fuel + 1, a :: t => ((a :: t).take n) :: chunkAux n fuel ((a :: t).drop n)

def chunkList (n : Nat) (l : List CSVRow) : List (List CSVRow) := chunkAux n l.length l

/-- The batch loop within one mega-batch: each batch's rows, then the
fixed `batchDelay` sleep except after the last batch. -/
def processBatches (tokens : Option Tokens) (ro : Nat → RowOutcome) (hasProgress : Bool)
    (total megaBase : Nat) :
    List (List CSVRow) → Nat → EngineState → EngineState × List Event
  | [], _, st => (st, [])
  | b :: rest, batchIndex, st =>
    let r1 := processBatchRows tokens ro hasProgress total b
      (megaBase + batchIndex * RATE_LIMIT_CONFIG.batchSize) st
    let sleepEvt := if !rest.isEmpty then [Event.sleepEv RATE_LIMIT_CONFIG.batchDelay] else []
    let r2 := processBatches tokens ro hasProgress total megaBase rest (batchIndex + 1) r1.1
    (r2.1, r1.2 ++ sleepEvt ++ r2.2)

def megaBatchSize : Nat := 100

/-- The mega-batch loop: a 10000 ms sleep before every mega-batch but the
first (only in mega-batch mode), then the mega-batch's batches of size
`batchSize`. -/
def processMegaBatches (tokens : Option Tokens) (ro : Nat → RowOutcome) (hasProgress : Bool)
    (total : Nat) (useMegaBatches : Bool) :
    List (List CSVRow) → Nat → EngineState → EngineState × List Event
  | [], _, st => (st, [])
  | mb :: rest, megaBatchIndex, st =>
    let preSleep :=
      if useMegaBatches && decide (0 < megaBatchIndex) then [Event.sleepEv 10000] else []
    let r1 := processBatches tokens ro hasProgress total (megaBatchIndex * megaBatchSize)
      (chunkList RATE_LIMIT_CONFIG.batchSize mb) 0 st
    let r2 := processMegaBatches tokens ro hasProgress total useMegaBatches rest
      (megaBatchIndex + 1) r1.1
    (r2.1, preSleep ++ r1.2 ++ r2.2)

/-- The whole import loop of `importArticles` after a successful
authentication: mega-batches of 100 when more than 100 rows, otherwise
the whole input as one mega-batch. -/
def engineRun (t : Tokens) (ro : Nat → RowOutcome) (articles : List CSVRow)
    (hasProgress : Bool) : EngineState × List Event :=
  let useMegaBatches := decide (100 < articles.length)
  let megaBatches := if useMegaBatches then chunkList megaBatchSize articles else [articles]
  processMegaBatches (some t) ro hasProgress articles.length useMegaBatches megaBatches 0 initState

/-- The `ImportResult` of `types/index.ts` together with the
`failedArticles` extension of `importArticles`; absent optional fields
are `none`. -/
structure ImportResult where
  success : Bool
  message : String
  importedCount : Option Nat
  failedCount : Option Nat
  failedArticles : Option (List (String × String))
deriving DecidableEq, Repr

/-- `authenticate` of `apiClient.ts`: always issues the `/authenticate`
request; on success the token pair replaces the stored one, on failure
the previously stored pair is left untouched. -/
def authenticate (prior : Option Tokens) (outcome : Option Tokens) :
    (Bool × Option Tokens) × List Event :=
  match outcome with
  | some t => ((true, some t), [Event.authReq])
  | none => ((false, prior), [Event.authReq])

/-- `importArticles` of `apiClient.ts`: authenticate first and stop with
the auth-failure result when that fails; otherwise run the batched
loop over all rows, emit the final progress callback, and build the result
(failure when no row succeeded; `failedArticles` only kept on the
success path when some row failed). -/
def importArticles (prior : Option Tokens) (authOutcome : Option Tokens)
    (ro : Nat → RowOutcome) (articles : List CSVRow) (hasProgress : Bool) :
    ImportResult × List Event :=
  let a := authenticate prior authOutcome
  match authOutcome with
  | none =>
    ({ success := false, message := "Failed to authenticate with Instapaper",
       importedCount := none, failedCount := none, failedArticles := none }, a.2)
  | some t =>
      let run := engineRun t ro articles hasProgress
      let st := run.1
      let finalProg :=
        if hasProgress then [Event.progressEv articles.length articles.length] else []
      let result :=
        if st.successCount == 0 then
          { success := false, message := "Failed to import any articles",
            importedCount := some 0, failedCount := some st.failedCount,
            failedArticles := some st.failedArticles }
        else
          { success := true,
            message := "Successfully imported " ++ toString st.successCount ++ " articles" ++
              (if 0 < st.failedCount then ", " ++ toString st.failedCount ++ " failed" else ""),
            importedCount := some st.successCount, failedCount := some st.failedCount,
            failedArticles := if 0 < st.failedCount then some st.failedArticles else none }
      (result, a.2 ++ run.2 ++ finalProg)

/-- The `ImportProgress` of `types/index.ts`; `percentage` is `none` when
the JavaScript computation `Math.round(current / total * 100)` is not a
finite number (the `0 / 0` case). -/
structure ImportProgress where
  current : Nat
  total : Nat
  percentage : Option ℤ
  isComplete : Bool
deriving DecidableEq, Repr

/-- Executable model of JavaScript `Math.round` on finite nonnegative
values: round half up, `Math.round(x) = floor(x + 1 / 2)`; agrees with
Mathlib's `round` (see `jsRound_eq_round`). -/
def jsRound (q : ℚ) : ℤ := Rat.floor (q + 1 / 2)

/-- `handleProgress` of `importArticlesToInstapaper`
(`instapaperService.ts`). -/
def handleProgress (current total : Nat) : ImportProgress :=
  { current := current, total := total,
    percentage := if total == 0 then none else some (jsRound ((current : ℚ) / (total : ℚ) * 100)),
    isComplete := current == total }

/-- `importArticlesToInstapaper` of `instapaperService.ts` with its
progress callback: the result of `importArticles` together with the
`ImportProgress` values the caller receives, in order. -/
def importArticlesToInstapaper (prior : Option Tokens) (authOutcome : Option Tokens)
    (ro : Nat → RowOutcome) (articles : List CSVRow) :
    ImportResult × List ImportProgress :=
  let r := importArticles prior authOutcome ro articles true
  (r.1, (progressPairs r.2).map (fun p => handleProgress p.1 p.2))

/-! Lemmas about `addArticleWithRetry`. -/

theorem addGo_none (attempts : Nat → AddOutcome) (a : CSVRow) (rem k : Nat) :
    addGo none attempts a rem k =
      ({ success := false, error := some "No auth tokens available" }, []) := by
  cases rem <;> rw [addGo]

theorem addRetry_none (attempts : Nat → AddOutcome) (a : CSVRow) (k : Nat) :
    addArticleWithRetry none attempts a k =
      ({ success := false, error := some "No auth tokens available" }, []) :=
  addGo_none attempts a _ k

theorem addGo_ok (t : Tokens) (attempts : Nat → AddOutcome) (a : CSVRow) (rem k : Nat)
    (b : Bool) (h : attempts k = .ok b) :
    addGo (some t) attempts a rem k = ({ success := b, error := none }, [.addReq a.url]) := by
  cases rem <;> rw [addGo, h]

theorem addRetry_ok (t : Tokens) (attempts : Nat → AddOutcome) (a : CSVRow) (k : Nat) (b : Bool)
    (h : attempts k = .ok b) :
    addArticleWithRetry (some t) attempts a k =
      ({ success := b, error := none }, [.addReq a.url]) :=
  addGo_ok t attempts a _ k b h

theorem addRetry_transient (t : Tokens) (attempts : Nat → AddOutcome) (a : CSVRow) (k : Nat)
    (s : Option Nat) (m : String) (h : attempts k = .err s m)
    (ht : isTransientStatus s = true) (hk : k < RATE_LIMIT_CONFIG.maxRetries) :
    addArticleWithRetry (some t) attempts a k =
      ((addArticleWithRetry (some t) attempts a (k + 1)).1,
        .addReq a.url :: .sleepEv (min ((150 : ℚ) * 2 ^ k) 5000) ::
          (addArticleWithRetry (some t) attempts a (k + 1)).2) := by
  have hm : RATE_LIMIT_CONFIG.maxRetries - k = (RATE_LIMIT_CONFIG.maxRetries - (k + 1)) + 1 := by
    show 3 - k = (3 - (k + 1)) + 1
    have hk3 : k < 3 := hk
    omega
  rw [addArticleWithRetry, addArticleWithRetry, hm, addGo, h]
  simp only [ht, if_true]
  rfl

theorem addRetry_no_retry (t : Tokens) (attempts : Nat → AddOutcome) (a : CSVRow) (k : Nat)
    (s : Option Nat) (m : String) (h : attempts k = .err s m)
    (hnt : isTransientStatus s = false ∨ RATE_LIMIT_CONFIG.maxRetries ≤ k) :
    addArticleWithRetry (some t) attempts a k =
      ({ success := false, error := some m }, [.addReq a.url]) := by
  rw [addArticleWithRetry]
  rcases hnt with h1 | h2
  · rcases hrem : RATE_LIMIT_CONFIG.maxRetries - k with _ | r
    · rw [addGo, h]
    · rw [addGo, h]
      simp [h1]
  · have hz : RATE_LIMIT_CONFIG.maxRetries - k = 0 := by
      show 3 - k = 0
      have h3 : (3 : Nat) ≤ k := h2
      omega
    rw [hz, addGo, h]

theorem addGo_trace (tokens : Option Tokens) (attempts : Nat → AddOutcome) (a : CSVRow) :
    ∀ remaining k,
    progressPairs (addGo tokens attempts a remaining k).2 = [] ∧
    countAddReq (addGo tokens attempts a remaining k).2 ≤ 1 + remaining := by
  intro remaining
  induction remaining with
  | zero =>
    intro k
    cases tokens with
    | none => simp [addGo_none, progressPairs, countAddReq]
    | some t =>
      rw [addGo]
      cases hat : attempts k with
      | ok b => simp [hat, progressPairs, progressOf, countAddReq, isAddReqB]
      | err s m => simp [hat, progressPairs, progressOf, countAddReq, isAddReqB]
  | succ r ih =>
    intro k
    cases tokens with
    | none => simp [addGo_none, progressPairs, countAddReq]
    | some t =>
      rw [addGo]
      cases hat : attempts k with
      | ok b => simp [hat, progressPairs, progressOf, countAddReq, isAddReqB]
      | err s m =>
        cases ht : isTransientStatus s with
        | false => simp [hat, ht, progressPairs, progressOf, countAddReq, isAddReqB]
        | true =>
          obtain ⟨ih1, ih2⟩ := ih (k + 1)
          simp only [ht, if_true]
          refine ⟨?_, ?_⟩
          · simpa [progressPairs, progressOf] using ih1
          · simp only [countAddReq, List.filter, isAddReqB, List.length_cons] at ih2 ⊢
            omega

/-- Over any outcomes, `addArticleWithRetry` emits no progress callback
and issues at most `1 + (maxRetries - retryCount)` add requests. -/
theorem addRetry_trace (tokens : Option Tokens) (attempts : Nat → AddOutcome)
    (a : CSVRow) (k : Nat) :
    progressPairs (addArticleWithRetry tokens attempts a k).2 = [] ∧
    countAddReq (addArticleWithRetry tokens attempts a k).2 ≤
      1 + (RATE_LIMIT_CONFIG.maxRetries - k) :=
  addGo_trace tokens attempts a (RATE_LIMIT_CONFIG.maxRetries - k) k

/-! Lemmas about the parser and the validator. -/

theorem extract_title_empty (values : List String) :
    (extractTitleUrlStatus values).title = "" := rfl

theorem parseLine_fields (line : String) (r : CSVRow) (h : parseLine line = some r) :
    r.title = "" ∧ r.time_added = "" ∧ r.tags = "" := by
  simp only [parseLine] at h
  split at h
  · exact absurd h (by simp)
  · split at h
    · exact absurd h (by simp)
    · cases h
      exact ⟨extract_title_empty (splitQuoted (jsTrim line)), rfl, rfl⟩

theorem parseCSV_fields (content : String) (r : CSVRow) (h : r ∈ parseCSV content) :
    r.title = "" ∧ r.time_added = "" ∧ r.tags = "" := by
  simp only [parseCSV, List.mem_filterMap] at h
  obtain ⟨line, _, hl⟩ := h
  exact parseLine_fields line r hl

theorem validateGo_firstInvalid (rows : List CSVRow) (i j : Nat) (r : CSVRow)
    (h : firstInvalid rows i = some (j, r)) :
    validateGo rows i = (false, some (invalidUrlMsg (j + 1) r.url)) := by
  induction rows generalizing i with
  | nil => exact absurd h (by simp [firstInvalid])
  | cons a rest ih =>
    rw [firstInvalid] at h
    rw [validateGo]
    by_cases ha : invalidRow a = true
    · rw [if_pos ha] at h
      have hcond : (a.url == "" || !isValidUrl a.url) = true := ha
      obtain ⟨rfl, rfl⟩ : i = j ∧ a = r := by
        cases h
        exact ⟨rfl, rfl⟩
      rw [if_pos hcond]
    · rw [if_neg ha] at h
      have hcond : ¬((a.url == "" || !isValidUrl a.url) = true) := ha
      rw [if_neg hcond]
      exact ih (i + 1) h

theorem validateGo_allValid (rows : List CSVRow) (i : Nat)
    (h : firstInvalid rows i = none) : validateGo rows i = (true, none) := by
  induction rows generalizing i with
  | nil => rfl
  | cons a rest ih =>
    rw [firstInvalid] at h
    rw [validateGo]
    by_cases ha : invalidRow a = true
    · rw [if_pos ha] at h
      cases h
    · rw [if_neg ha] at h
      have hcond : ¬((a.url == "" || !isValidUrl a.url) = true) := ha
      rw [if_neg hcond]
      exact ih (i + 1) h

/-! Lemmas about the chunking loops. -/

theorem chunkAux_fuel (n : Nat) (hn : 0 < n) :
    ∀ f g l, l.length ≤ f → l.length ≤ g → chunkAux n f l = chunkAux n g l := by
  intro f
  induction f with
  | zero =>
    intro g l hf _
    have : l = [] := List.eq_nil_of_length_eq_zero (Nat.le_zero.mp hf)
    subst this
    cases g <;> rfl
  | succ f ih =>
    intro g l hf hg
    cases l with
    | nil => cases g <;> rfl
    | cons a t =>
      have hg1 : 0 < g := by
        simp at hg
        omega
      obtain ⟨g1, rfl⟩ : ∃ g1, g = g1 + 1 := ⟨g - 1, by omega⟩
      rw [chunkAux, chunkAux]
      have hlen : ((a :: t).drop n).length ≤ f := by
        simp [List.length_drop]
        simp at hf
        omega
      have hlen2 : ((a :: t).drop n).length ≤ g1 := by
        simp [List.length_drop]
        simp at hg
        omega
      rw [ih g1 ((a :: t).drop n) hlen hlen2]

theorem chunkList_nil (n : Nat) : chunkList n [] = [] := rfl

theorem chunkList_cons (n : Nat) (hn : 0 < n) (a : CSVRow) (t : List CSVRow) :
    chunkList n (a :: t) = ((a :: t).take n) :: chunkList n ((a :: t).drop n) := by
  show chunkAux n (a :: t).length (a :: t) = _
  rw [List.length_cons, chunkAux]
  rw [chunkAux_fuel n hn t.length ((a :: t).drop n).length ((a :: t).drop n)
    (by simp [List.length_drop]; omega) (le_refl _)]
  rfl

/-! Lemmas about the import loop. -/

theorem progressPairs_append (l1 l2 : List Event) :
    progressPairs (l1 ++ l2) = progressPairs l1 ++ progressPairs l2 :=
  List.filterMap_append l1 l2 progressOf

theorem progressPairs_sleepIf (c : Bool) (d : ℚ) :
    progressPairs (if c then [Event.sleepEv d] else []) = [] := by
  cases c <;> simp [progressPairs, progressOf]

/-- Each row increments exactly one of the two counters exactly once
(also when the row body throws), and leaves no other counter change. -/
theorem processRow_counts (tokens : Option Tokens) (hp : Bool) (total : Nat)
    (o : RowOutcome) (a : CSVRow) (idx : Nat) (last : Bool) (st : EngineState) :
    ((processRow tokens hp total o a idx last st).1.successCount = st.successCount + 1 ∧
     (processRow tokens hp total o a idx last st).1.failedCount = st.failedCount) ∨
    ((processRow tokens hp total o a idx last st).1.successCount = st.successCount ∧
     (processRow tokens hp total o a idx last st).1.failedCount = st.failedCount + 1) := by
  cases o with
  | throws => exact Or.inr (by simp [processRow])
  | normal attempts =>
    simp only [processRow]
    by_cases hs : (addArticleWithRetry tokens attempts a 0).1.success = true
    · exact Or.inl (by simp [hs])
    · exact Or.inr (by simp [hs])

theorem processRow_progress (tokens : Option Tokens) (hp : Bool) (total : Nat)
    (o : RowOutcome) (a : CSVRow) (idx : Nat) (last : Bool) (st : EngineState) :
    progressPairs (processRow tokens hp total o a idx last st).2 = [] ∨
    progressPairs (processRow tokens hp total o a idx last st).2 = [(idx, total)] := by
  cases o with
  | throws => exact Or.inl (by simp [processRow, progressPairs])
  | normal attempts =>
    have hadd := (addRetry_trace tokens attempts a 0).1
    simp only [processRow]
    by_cases hc : (hp && (idx % 5 == 0 || idx == total - 1)) = true
    · refine Or.inr ?_
      simp only [hc, if_true, progressPairs_append, progressPairs_sleepIf, hadd]
      simp [progressPairs, progressOf]
    · refine Or.inl ?_
      simp only [hc, if_false, progressPairs_append, progressPairs_sleepIf, hadd]
      simp [progressPairs]

theorem processBatchRows_spec (tokens : Option Tokens) (ro : Nat → RowOutcome) (hp : Bool)
    (total : Nat) (b : List CSVRow) (idx : Nat) (st : EngineState) :
    ((processBatchRows tokens ro hp total b idx st).1.successCount +
       (processBatchRows tokens ro hp total b idx st).1.failedCount =
       st.successCount + st.failedCount + b.length) ∧
    (∀ p ∈ progressPairs (processBatchRows tokens ro hp total b idx st).2,
       p.2 = total ∧ idx ≤ p.1 ∧ p.1 < idx + b.length) ∧
    List.Pairwise (fun x y => x < y)
      ((progressPairs (processBatchRows tokens ro hp total b idx st).2).map Prod.fst) := by
  induction b generalizing idx st with
  | nil => simp [processBatchRows, progressPairs]
  | cons a rest ih =>
    simp only [processBatchRows, progressPairs_append, List.map_append, List.length_cons]
    obtain ⟨ihc, ihb, ihs⟩ :=
      ih (idx + 1) (processRow tokens hp total (ro idx) a idx rest.isEmpty st).1
    have hrc := processRow_counts tokens hp total (ro idx) a idx rest.isEmpty st
    have hrp := processRow_progress tokens hp total (ro idx) a idx rest.isEmpty st
    refine ⟨?_, ?_, ?_⟩
    · rcases hrc with ⟨h1, h2⟩ | ⟨h1, h2⟩ <;> omega
    · intro p hp2
      rcases List.mem_append.mp hp2 with hin | hin
      · rcases hrp with he | he
        · rw [he] at hin
          cases hin
        · rw [he] at hin
          rcases List.mem_singleton.mp hin with rfl
          exact ⟨rfl, le_refl _, by omega⟩
      · obtain ⟨h1, h2, h3⟩ := ihb p hin
        exact ⟨h1, by omega, by omega⟩
    · rw [List.pairwise_append]
      refine ⟨?_, ihs, ?_⟩
      · rcases hrp with he | he <;> simp [he]
      · intro x hx y hy
        rcases List.mem_map.mp hx with ⟨p, hpmem, rfl⟩
        rcases List.mem_map.mp hy with ⟨q, hqmem, rfl⟩
        rcases hrp with he | he
        · rw [he] at hpmem
          cases hpmem
        · rw [he] at hpmem
          rcases List.mem_singleton.mp hpmem with rfl
          obtain ⟨_, h2, _⟩ := ihb q hqmem
          omega

theorem processBatches_spec (tokens : Option Tokens) (ro : Nat → RowOutcome) (hp : Bool)
    (total megaBase : Nat) :
    ∀ N mb, List.length mb ≤ N → ∀ j st,
    ((processBatches tokens ro hp total megaBase (chunkList 25 mb) j st).1.successCount +
       (processBatches tokens ro hp total megaBase (chunkList 25 mb) j st).1.failedCount =
       st.successCount + st.failedCount + mb.length) ∧
    (∀ p ∈ progressPairs (processBatches tokens ro hp total megaBase (chunkList 25 mb) j st).2,
       p.2 = total ∧ megaBase + j * 25 ≤ p.1 ∧ p.1 < megaBase + j * 25 + mb.length) ∧
    List.Pairwise (fun x y => x < y)
      ((progressPairs
          (processBatches tokens ro hp total megaBase (chunkList 25 mb) j st).2).map Prod.fst) := by
  intro N
  induction N with
  | zero =>
    intro mb hmb j st
    have : mb = [] := List.eq_nil_of_length_eq_zero (Nat.le_zero.mp hmb)
    subst this
    simp [chunkList_nil, processBatches, progressPairs]
  | succ N ih =>
    intro mb hmb j st
    cases mb with
    | nil => simp [chunkList_nil, processBatches, progressPairs]
    | cons a t =>
      rw [chunkList_cons 25 (by norm_num) a t]
      simp only [processBatches, progressPairs_append, List.map_append]
      have hbs : RATE_LIMIT_CONFIG.batchSize = 25 := rfl
      rw [hbs]
      obtain ⟨bc, bb, bs⟩ := processBatchRows_spec tokens ro hp total ((a :: t).take 25)
        (megaBase + j * 25) st
      obtain ⟨ic, ib, is⟩ := ih ((a :: t).drop 25)
        (by simp [List.length_drop]; simp at hmb; omega) (j + 1)
        (processBatchRows tokens ro hp total ((a :: t).take 25) (megaBase + j * 25) st).1
      have hlt : ((a :: t).take 25).length = min 25 (a :: t).length := List.length_take 25 _
      have hld : ((a :: t).drop 25).length = (a :: t).length - 25 := List.length_drop 25 _
      have hsleep : progressPairs
          (if !(chunkList 25 ((a :: t).drop 25)).isEmpty
           then [Event.sleepEv RATE_LIMIT_CONFIG.batchDelay] else []) = [] := by
        split <;> simp [progressPairs, progressOf]
      refine ⟨?_, ?_, ?_⟩
      · rw [hsleep] at *
        simp only [List.length_cons] at *
        omega
      · intro p hp2
        rw [hsleep] at hp2
        simp only [List.append_nil] at hp2
        rcases List.mem_append.mp hp2 with hin | hin
        · obtain ⟨h1, h2, h3⟩ := bb p hin
          refine ⟨h1, h2, ?_⟩
          simp only [List.length_cons] at *
          omega
        · obtain ⟨h1, h2, h3⟩ := ib p hin
          refine ⟨h1, by omega, ?_⟩
          simp only [List.length_cons] at *
          omega
      · rw [hsleep]
        simp only [List.map_nil, List.nil_append, List.append_nil]
        rw [List.pairwise_append]
        refine ⟨bs, is, ?_⟩
        intro x hx y hy
        rcases List.mem_map.mp hx with ⟨p, hpmem, rfl⟩
        rcases List.mem_map.mp hy with ⟨q, hqmem, rfl⟩
        obtain ⟨_, _, h3⟩ := bb p hpmem
        obtain ⟨_, h2, _⟩ := ib q hqmem
        simp only [List.length_cons] at *
        omega

theorem processMegaBatches_chunk_spec (tokens : Option Tokens) (ro : Nat → RowOutcome)
    (hp : Bool) (total : Nat) (u : Bool) :
    ∀ N l, List.length l ≤ N → ∀ m st,
    ((processMegaBatches tokens ro hp total u (chunkList 100 l) m st).1.successCount +
       (processMegaBatches tokens ro hp total u (chunkList 100 l) m st).1.failedCount =
       st.successCount + st.failedCount + l.length) ∧
    (∀ p ∈ progressPairs (processMegaBatches tokens ro hp total u (chunkList 100 l) m st).2,
       p.2 = total ∧ m * 100 ≤ p.1 ∧ p.1 < m * 100 + l.length) ∧
    List.Pairwise (fun x y => x < y)
      ((progressPairs
          (processMegaBatches tokens ro hp total u (chunkList 100 l) m st).2).map Prod.fst) := by
  intro N
  induction N with
  | zero =>
    intro l hl m st
    have : l = [] := List.eq_nil_of_length_eq_zero (Nat.le_zero.mp hl)
    subst this
    simp [chunkList_nil, processMegaBatches, progressPairs]
  | succ N ih =>
    intro l hl m st
    cases l with
    | nil => simp [chunkList_nil, processMegaBatches, progressPairs]
    | cons a t =>
      rw [chunkList_cons 100 (by norm_num) a t]
      simp only [processMegaBatches, progressPairs_append, List.map_append]
      have hpre : progressPairs
          (if u && decide (0 < m) then [Event.sleepEv 10000] else []) = [] := by
        split <;> simp [progressPairs, progressOf]
      have hmb : m * megaBatchSize = m * 100 := rfl
      have hbs : RATE_LIMIT_CONFIG.batchSize = 25 := rfl
      rw [hmb, hbs]
      obtain ⟨bc, bb, bs⟩ := processBatches_spec tokens ro hp total (m * 100)
        ((a :: t).take 100).length ((a :: t).take 100) (le_refl _) 0 st
      obtain ⟨ic, ib, is⟩ := ih ((a :: t).drop 100)
        (by simp [List.length_drop]; simp at hl; omega) (m + 1)
        (processBatches tokens ro hp total (m * 100)
          (chunkList 25 ((a :: t).take 100)) 0 st).1
      have hlt : ((a :: t).take 100).length = min 100 (a :: t).length := List.length_take 100 _
      have hld : ((a :: t).drop 100).length = (a :: t).length - 100 := List.length_drop 100 _
      refine ⟨?_, ?_, ?_⟩
      · rw [hpre] at *
        simp only [List.length_cons] at *
        omega
      · intro p hp2
        rw [hpre] at hp2
        simp only [List.nil_append] at hp2
        rcases List.mem_append.mp hp2 with hin | hin
        · obtain ⟨h1, h2, h3⟩ := bb p hin
          refine ⟨h1, by omega, ?_⟩
          simp only [List.length_cons] at *
          omega
        · obtain ⟨h1, h2, h3⟩ := ib p hin
          refine ⟨h1, by omega, ?_⟩
          simp only [List.length_cons] at *
          omega
      · rw [hpre]
        simp only [List.map_nil, List.nil_append]
        rw [List.pairwise_append]
        refine ⟨bs, is, ?_⟩
        intro x hx y hy
        rcases List.mem_map.mp hx with ⟨p, hpmem, rfl⟩
        rcases List.mem_map.mp hy with ⟨q, hqmem, rfl⟩
        obtain ⟨_, _, h3⟩ := bb p hpmem
        obtain ⟨_, h2, _⟩ := ib q hqmem
        simp only [List.length_cons] at *
        omega

theorem processMegaBatches_single_spec (tokens : Option Tokens) (ro : Nat → RowOutcome)
    (hp : Bool) (total : Nat) (u : Bool) (articles : List CSVRow) (st : EngineState) :
    ((processMegaBatches tokens ro hp total u [articles] 0 st).1.successCount +
       (processMegaBatches tokens ro hp total u [articles] 0 st).1.failedCount =
       st.successCount + st.failedCount + articles.length) ∧
    (∀ p ∈ progressPairs (processMegaBatches tokens ro hp total u [articles] 0 st).2,
       p.2 = total ∧ p.1 < articles.length) ∧
    List.Pairwise (fun x y => x < y)
      ((progressPairs (processMegaBatches tokens ro hp total u [articles] 0 st).2).map
        Prod.fst) := by
  simp only [processMegaBatches, progressPairs_append, List.map_append]
  have hpre : progressPairs
      (if u && decide ((0 : Nat) < 0) then [Event.sleepEv 10000] else []) = [] := by
    split <;> simp [progressPairs, progressOf]
  have hmb : (0 : Nat) * megaBatchSize = 0 := rfl
  have hbs : RATE_LIMIT_CONFIG.batchSize = 25 := rfl
  rw [hmb, hbs]
  obtain ⟨bc, bb, bs⟩ := processBatches_spec tokens ro hp total 0 articles.length articles
    (le_refl _) 0 st
  refine ⟨?_, ?_, ?_⟩
  · rw [hpre] at *
    simp only [processMegaBatches, progressPairs, List.filterMap_nil] at *
    omega
  · intro p hp2
    rw [hpre] at hp2
    simp only [List.nil_append] at hp2
    rcases List.mem_append.mp hp2 with hin | hin
    · obtain ⟨h1, h2, h3⟩ := bb p hin
      exact ⟨h1, by omega⟩
    · simp [processMegaBatches, progressPairs] at hin
  · rw [hpre]
    simp only [List.map_nil, List.nil_append]
    rw [List.pairwise_append]
    refine ⟨bs, ?_, ?_⟩
    · simp [processMegaBatches, progressPairs]
    · intro x hx y hy
      simp [processMegaBatches, progressPairs] at hy

/-- Final counters and progress-callback shape of the import loop: the
two counters sum to the number of rows, every intermediate progress
callback carries the row total and a current strictly below it, and the
currents are strictly increasing. -/
theorem engineRun_spec (t : Tokens) (ro : Nat → RowOutcome) (articles : List CSVRow)
    (hp : Bool) :
    ((engineRun t ro articles hp).1.successCount +
       (engineRun t ro articles hp).1.failedCount = articles.length) ∧
    (∀ p ∈ progressPairs (engineRun t ro articles hp).2,
       p.2 = articles.length ∧ p.1 < articles.length) ∧
    List.Pairwise (fun x y => x < y)
      ((progressPairs (engineRun t ro articles hp).2).map Prod.fst) := by
  rw [engineRun]
  by_cases hu : decide (100 < articles.length) = true
  · rw [if_pos hu]
    obtain ⟨c, b, s⟩ := processMegaBatches_chunk_spec (some t) ro hp articles.length
      (decide (100 < articles.length)) articles.length articles (le_refl _) 0 initState
    refine ⟨?_, ?_, s⟩
    · simpa [initState] using c
    · intro p hp2
      obtain ⟨h1, _, h3⟩ := b p hp2
      exact ⟨h1, by omega⟩
  · rw [if_neg hu]
    obtain ⟨c, b, s⟩ := processMegaBatches_single_spec (some t) ro hp articles.length
      (decide (100 < articles.length)) articles initState
    refine ⟨?_, b, s⟩
    simpa [initState] using c

/-! Lemmas about the progress shapes. -/

theorem jsRound_eq_round (q : ℚ) : jsRound q = round q := by
  rw [round_eq, jsRound]
  rfl

theorem round_frac_bounds (c tot : Nat) (hc : c ≤ tot) (ht : 0 < tot) :
    0 ≤ round ((c : ℚ) / (tot : ℚ) * 100) ∧ round ((c : ℚ) / (tot : ℚ) * 100) ≤ 100 := by
  have htq : (0 : ℚ) < tot := by exact_mod_cast ht
  have hx0 : 0 ≤ (c : ℚ) / tot * 100 := by positivity
  have hx1 : (c : ℚ) / tot * 100 ≤ 100 := by
    have h1 : (c : ℚ) / tot ≤ 1 := by
      rw [div_le_one htq]
      exact_mod_cast hc
    nlinarith
  constructor
  · rw [round_eq]
    exact Int.floor_nonneg.mpr (by linarith)
  · rw [round_eq]
    have h2 : ((c : ℚ) / tot * 100 + 1 / 2) < ((101 : ℤ) : ℚ) := by
      push_cast
      linarith
    have h3 := Int.floor_lt.mpr h2
    omega

/-- The progress pairs of a full `importArticles` run past
authentication: the loop's pairs followed by the final
`(total, total)`. -/
theorem importArticles_pairs (prior : Option Tokens) (t : Tokens) (ro : Nat → RowOutcome)
    (articles : List CSVRow) :
    progressPairs (importArticles prior (some t) ro articles true).2 =
      progressPairs (engineRun t ro articles true).2 ++
        [(articles.length, articles.length)] := by
  simp only [importArticles, authenticate]
  simp [progressPairs_append, progressPairs, progressOf]

/-! Claim theorems. -/

/-- C1: for every terminated run of `importArticles` that gets past
authentication, the returned result has `success = false` iff the final
`successCount` is `0`, equivalently iff `importedCount = some 0`. -/
theorem C1_success_iff (prior : Option Tokens) (t : Tokens) (ro : Nat → RowOutcome)
    (articles : List CSVRow) (hp : Bool) :
    ((importArticles prior (some t) ro articles hp).1.success = false ↔
      (engineRun t ro articles hp).1.successCount = 0) ∧
    ((importArticles prior (some t) ro articles hp).1.success = false ↔
      (importArticles prior (some t) ro articles hp).1.importedCount = some 0) := by
  simp only [importArticles, authenticate]
  by_cases h0 : (engineRun t ro articles hp).1.successCount = 0
  · simp [h0]
  · simp [h0]

/-- C2: every terminated run of `importArticles` attempts every row and
`successCount + failedCount` equals the number of rows; each attempted
row (also one whose processing throws) increments exactly one of the two
counters exactly once. -/
theorem C2_counts (t : Tokens) (ro : Nat → RowOutcome) (articles : List CSVRow) (hp : Bool) :
    ((engineRun t ro articles hp).1.successCount +
       (engineRun t ro articles hp).1.failedCount = articles.length) ∧
    (∀ (tokens : Option Tokens) (hpb : Bool) (total : Nat) (o : RowOutcome) (a : CSVRow)
       (idx : Nat) (last : Bool) (st : EngineState),
       ((processRow tokens hpb total o a idx last st).1.successCount = st.successCount + 1 ∧
        (processRow tokens hpb total o a idx last st).1.failedCount = st.failedCount) ∨
       ((processRow tokens hpb total o a idx last st).1.successCount = st.successCount ∧
        (processRow tokens hpb total o a idx last st).1.failedCount = st.failedCount + 1)) :=
  ⟨(engineRun_spec t ro articles hp).1,
   fun tokens hpb total o a idx last st => processRow_counts tokens hpb total o a idx last st⟩

/-- C3: when authentication fails, `importArticles` terminates at once
with `success = false`, a message mentioning authentication, none of the
optional count fields, and a trace holding only the authenticate
request: no add-bookmark attempt, no progress callback. -/
theorem C3_auth_failure (prior : Option Tokens) (ro : Nat → RowOutcome)
    (articles : List CSVRow) (hp : Bool) :
    importArticles prior none ro articles hp =
      ({ success := false, message := "Failed to authenticate with Instapaper",
         importedCount := none, failedCount := none, failedArticles := none },
       [Event.authReq]) ∧
    jsIncludes "Failed to authenticate with Instapaper" "authenticate" = true ∧
    countAddReq (importArticles prior none ro articles hp).2 = 0 ∧
    progressPairs (importArticles prior none ro articles hp).2 = [] :=
  ⟨rfl, by decide, rfl, rfl⟩

/-- C5: an add-bookmark attempt with no stored token pair fails at once
with the local not-authenticated error and issues no request at all (the
trace is empty, so in particular no add request is transmitted). -/
theorem C5_no_tokens (attempts : Nat → AddOutcome) (a : CSVRow) (k : Nat) :
    addArticleWithRetry none attempts a k =
      ({ success := false, error := some "No auth tokens available" }, []) ∧
    countAddReq (addArticleWithRetry none attempts a k).2 = 0 := by
  refine ⟨addRetry_none attempts a k, ?_⟩
  rw [addRetry_none]
  rfl

/-- C6 counterexample: on the single line `"a,b",http://x.com` the
parser does NOT produce a row with `title = "a,b"`: the unique row it
produces has `title = ""` (and `"" ≠ "a,b"`), so the claimed
`title = "a,b"` is false at this input. -/
theorem C6_title_not_extracted :
    (parseCSV "\"a,b\",http://x.com").map (fun r => (r.title, r.url)) =
      [("", "http://x.com")] ∧
    (("" == "a,b") : Bool) = false := by decide

/-- C6 (amended): `parseCSV` on the single line `"a,b",http://x.com`
produces exactly one row with `url = "http://x.com"`; the comma inside
the quoted field is kept as literal data and does not split the field,
and the quote characters are removed from the extracted field — but the
row's `title` is the empty string (the quoted token `a,b` instead lands
in `status` through the two-token fallback). -/
theorem C6_quoted_comma :
    parseCSV "\"a,b\",http://x.com" =
      [{ title := "", url := "http://x.com", time_added := "", tags := "",
         status := "a,b" }] := by decide

/-- C8 counterexample: `importArticles` on an empty row list still calls
the Remote Bookmark Proxy: the trace of the run contains exactly one
proxy request, the authenticate call. -/
theorem C8_authreq_issued :
    ((importArticles none (some ⟨"tk", "ts"⟩) (fun _ => RowOutcome.throws) [] false).2.filter
      isProxyReq) = [Event.authReq] := by decide

/-- C8 (amended): `importArticles` with an empty row list issues no
add-bookmark request; it still issues the single authenticate request
(there is no empty-input early exit before authentication), and the
whole trace is the authenticate request plus the final progress
callback when one is registered. -/
theorem C8_empty_rows (prior : Option Tokens) (t : Tokens) (ro : Nat → RowOutcome) (hp : Bool) :
    countAddReq (importArticles prior (some t) ro [] hp).2 = 0 ∧
    (importArticles prior (some t) ro [] hp).2 =
      Event.authReq :: (if hp then [Event.progressEv 0 0] else []) := by
  cases hp <;> exact ⟨rfl, rfl⟩

/-- C10: every row the lenient `parseCSV` produces has an empty `title`,
`time_added` and `tags`: the parser never extracts a title from any
token. -/
theorem C10_lenient_fields (content : String) (r : CSVRow) (h : r ∈ parseCSV content) :
    r.title = "" ∧ r.time_added = "" ∧ r.tags = "" := by
  simp only [parseCSV, List.mem_filterMap] at h
  obtain ⟨line, _, hl⟩ := h
  exact parseLine_fields line r hl

theorem C10_lenient_fields_witness :
    (CSVRow.mk "" "http://x.com" "" "" "").title = "" ∧
    (CSVRow.mk "" "http://x.com" "" "" "").time_added = "" ∧
    (CSVRow.mk "" "http://x.com" "" "" "").tags = "" :=
  C10_lenient_fields "http://x.com" (CSVRow.mk "" "http://x.com" "" "" "") (by decide)

def c4tok : Tokens := ⟨"tk", "ts"⟩

def c4row : CSVRow := ⟨"", "http://x.com", "", "", ""⟩

def c4att1 : Nat → AddOutcome := fun k => if k == 0 then .err (some 429) "rate" else .ok true

def c4att2 : Nat → AddOutcome := fun _ => .err none "netdown"

def c4att3 : Nat → AddOutcome := fun _ => .err (some 400) "bad"

def c4att4 : Nat → AddOutcome := fun _ => .err (some 503) "unavailable"

def c4att600 : Nat → AddOutcome := fun k => if k == 0 then .err (some 600) "e" else .ok true

/-- C4 counterexample: a thrown error with HTTP status 600 — neither 429
nor a 5xx status (5xx means 500–599) — IS retried by the code, whose
guard is `statusCode >= 500`: the run issues two add requests and
succeeds on the second. -/
theorem C4_status600_retried :
    countAddReq (addArticleWithRetry (some c4tok) c4att600 c4row 0).2 = 2 ∧
    (addArticleWithRetry (some c4tok) c4att600 c4row 0).1 =
      { success := true, error := none } ∧
    decide (600 = 429 ∨ (500 ≤ 600 ∧ 600 ≤ 599)) = false :=
  ⟨by decide, by decide, by decide⟩

/-- C4 (amended): the add-bookmark attempt is retried only on a thrown
error whose HTTP status is 429 or at least 500 (not only 500–599), at
most `maxRetries = 3` additional times, and the delay before the retry
with attempt counter `k` equals `min(150 * 2 ^ k, 5000)` milliseconds;
an error with no status (network failure), an error with any other
status, an exhausted retry budget, and a 2xx body without
`success = true` are never retried and count as a permanent failure for
the row. -/
theorem C4_retry_policy :
    (∀ (t : Tokens) (attempts : Nat → AddOutcome) (a : CSVRow) (k c : Nat) (m : String),
       attempts k = .err (some c) m → (c = 429 ∨ 500 ≤ c) →
       k < RATE_LIMIT_CONFIG.maxRetries →
       addArticleWithRetry (some t) attempts a k =
         ((addArticleWithRetry (some t) attempts a (k + 1)).1,
           .addReq a.url :: .sleepEv (min ((150 : ℚ) * 2 ^ k) 5000) ::
             (addArticleWithRetry (some t) attempts a (k + 1)).2)) ∧
    (∀ (t : Tokens) (attempts : Nat → AddOutcome) (a : CSVRow) (k : Nat) (m : String),
       attempts k = .err none m →
       addArticleWithRetry (some t) attempts a k =
         ({ success := false, error := some m }, [.addReq a.url])) ∧
    (∀ (t : Tokens) (attempts : Nat → AddOutcome) (a : CSVRow) (k c : Nat) (m : String),
       attempts k = .err (some c) m → c ≠ 429 → c < 500 →
       addArticleWithRetry (some t) attempts a k =
         ({ success := false, error := some m }, [.addReq a.url])) ∧
    (∀ (t : Tokens) (attempts : Nat → AddOutcome) (a : CSVRow) (k : Nat) (s : Option Nat)
       (m : String), attempts k = .err s m → RATE_LIMIT_CONFIG.maxRetries ≤ k →
       addArticleWithRetry (some t) attempts a k =
         ({ success := false, error := some m }, [.addReq a.url])) ∧
    (∀ (t : Tokens) (attempts : Nat → AddOutcome) (a : CSVRow) (k : Nat) (b : Bool),
       attempts k = .ok b →
       addArticleWithRetry (some t) attempts a k =
         ({ success := b, error := none }, [.addReq a.url])) ∧
    (∀ (tokens : Option Tokens) (attempts : Nat → AddOutcome) (a : CSVRow),
       countAddReq (addArticleWithRetry tokens attempts a 0).2 ≤
         1 + RATE_LIMIT_CONFIG.maxRetries) := by
  refine ⟨?_, ?_, ?_, ?_, ?_, ?_⟩
  · intro t attempts a k c m h hc hk
    refine addRetry_transient t attempts a k (some c) m h ?_ hk
    rcases hc with rfl | hc
    · decide
    · simp [isTransientStatus, hc]
  · intro t attempts a k m h
    exact addRetry_no_retry t attempts a k none m h (Or.inl rfl)
  · intro t attempts a k c m h hne hlt
    refine addRetry_no_retry t attempts a k (some c) m h (Or.inl ?_)
    simp [isTransientStatus]
    omega
  · intro t attempts a k s m h hk
    exact addRetry_no_retry t attempts a k s m h (Or.inr hk)
  · intro t attempts a k b h
    exact addRetry_ok t attempts a k b h
  · intro tokens attempts a
    have h := (addRetry_trace tokens attempts a 0).2
    simpa using h

theorem C4_retry_policy_witness :
    (addArticleWithRetry (some c4tok) c4att1 c4row 0 =
      ((addArticleWithRetry (some c4tok) c4att1 c4row 1).1,
        .addReq c4row.url :: .sleepEv (min ((150 : ℚ) * 2 ^ 0) 5000) ::
          (addArticleWithRetry (some c4tok) c4att1 c4row 1).2)) ∧
    (addArticleWithRetry (some c4tok) c4att2 c4row 0 =
      ({ success := false, error := some "netdown" }, [.addReq c4row.url])) ∧
    (addArticleWithRetry (some c4tok) c4att3 c4row 0 =
      ({ success := false, error := some "bad" }, [.addReq c4row.url])) ∧
    (addArticleWithRetry (some c4tok) c4att4 c4row 3 =
      ({ success := false, error := some "unavailable" }, [.addReq c4row.url])) ∧
    (addArticleWithRetry (some c4tok) c4att1 c4row 1 =
      ({ success := true, error := none }, [.addReq c4row.url])) ∧
    countAddReq (addArticleWithRetry (some c4tok) c4att4 c4row 0).2 ≤
      1 + RATE_LIMIT_CONFIG.maxRetries :=
  ⟨C4_retry_policy.1 c4tok c4att1 c4row 0 429 "rate" rfl (Or.inl rfl) (by decide),
   C4_retry_policy.2.1 c4tok c4att2 c4row 0 "netdown" rfl,
   C4_retry_policy.2.2.1 c4tok c4att3 c4row 0 400 "bad" rfl (by decide) (by decide),
   C4_retry_policy.2.2.2.1 c4tok c4att4 c4row 3 (some 503) "unavailable" rfl (by decide),
   C4_retry_policy.2.2.2.2.1 c4tok c4att1 c4row 1 true rfl,
   C4_retry_policy.2.2.2.2.2 (some c4tok) c4att4 c4row⟩

def csv7 : String := "\"Example\",https://example.com,,,archive\nhttps://bad-url,unread"

/-- C7 counterexample: on the scenario input the parser yields 2 rows,
but the validator ACCEPTS them: `https://bad-url` parses as a
syntactically valid absolute URL (scheme `https`, host `bad-url`), so no
message citing row 2 is ever produced. -/
theorem C7_badurl_accepted :
    (parseCSV csv7).length = 2 ∧
    validateCSV (parseCSV csv7) = (true, none) := ⟨by decide, by decide⟩

/-- C7 (amended): on the scenario input the parser yields exactly 2 rows
and the validator accepts them, because `https://bad-url` is a
syntactically valid absolute URL; in general `validateCSV` fails fast
exactly on the first row whose url is empty or fails URL parsing,
returning a message citing the 1-indexed row and the literal URL, and
accepts any nonempty row list with no such row. -/
theorem C7_validate :
    ((parseCSV csv7).length = 2 ∧ validateCSV (parseCSV csv7) = (true, none)) ∧
    (∀ (rows : List CSVRow) (i : Nat) (r : CSVRow),
       firstInvalid rows 0 = some (i, r) →
       validateCSV rows = (false, some (invalidUrlMsg (i + 1) r.url))) ∧
    (∀ rows : List CSVRow, rows ≠ [] → firstInvalid rows 0 = none →
       validateCSV rows = (true, none)) := by
  refine ⟨⟨by decide, by decide⟩, ?_, ?_⟩
  · intro rows i r h
    cases rows with
    | nil => exact absurd h (by simp [firstInvalid])
    | cons a rest =>
      rw [validateCSV]
      simp only [List.length_cons]
      rw [if_neg (by simp)]
      exact validateGo_firstInvalid (a :: rest) 0 i r h
  · intro rows hne h
    cases rows with
    | nil => exact absurd rfl hne
    | cons a rest =>
      rw [validateCSV]
      simp only [List.length_cons]
      rw [if_neg (by simp)]
      exact validateGo_allValid (a :: rest) 0 h

theorem C7_validate_witness :
    validateCSV [CSVRow.mk "" "" "" "" ""] =
      (false, some (invalidUrlMsg 1 "")) :=
  C7_validate.2.1 [CSVRow.mk "" "" "" "" ""] 0 (CSVRow.mk "" "" "" "" "") (by decide)

/-- C9 counterexample: a run of `importArticlesToInstapaper` past
authentication over an EMPTY row list emits exactly one progress value,
with `current = total = 0`, whose `percentage` is the JavaScript
computation `Math.round(0 / 0 * 100) = NaN` (modelled `none`), not an
integer in 0–100. -/
theorem C9_empty_percentage_nan :
    ((importArticlesToInstapaper none (some ⟨"tk", "ts"⟩) (fun _ => RowOutcome.throws) []).2).map
      (fun p => (p.current, p.total, p.percentage, p.isComplete)) = [(0, 0, none, true)] := by
  decide

/-- Field shape of one emitted `ImportProgress` value with a positive
total. -/
theorem handleProgress_spec (c tot : Nat) (hc : c ≤ tot) (ht : 0 < tot) :
    (handleProgress c tot).total = tot ∧ (handleProgress c tot).current = c ∧
    (handleProgress c tot).percentage =
      some (round (((handleProgress c tot).current : ℚ) /
        ((handleProgress c tot).total : ℚ) * 100)) ∧
    0 ≤ round (((handleProgress c tot).current : ℚ) /
        ((handleProgress c tot).total : ℚ) * 100) ∧
    round (((handleProgress c tot).current : ℚ) /
        ((handleProgress c tot).total : ℚ) * 100) ≤ 100 ∧
    (handleProgress c tot).isComplete =
      ((handleProgress c tot).current == (handleProgress c tot).total) := by
  have htz : (tot == 0) = false := by
    simp
    omega
  obtain ⟨r1, r2⟩ := round_frac_bounds c tot hc ht
  exact ⟨rfl, rfl, by simp [handleProgress, htz, jsRound_eq_round], r1, r2, rfl⟩

/-- C9 (amended): for every run of `importArticlesToInstapaper` past
authentication over a NONEMPTY row list, every emitted `ImportProgress`
has `percentage = round(100 * current / total)`, an integer in 0–100,
`isComplete ↔ current = total`, and the `current` values are
monotonically non-decreasing across consecutive callbacks, ending with
`current = total`.  (Over an empty list the single final callback
computes `0 / 0` and its percentage is NaN rather than an integer, and a
run that fails authentication emits no progress at all.) -/
theorem C9_progress (prior : Option Tokens) (t : Tokens) (ro : Nat → RowOutcome)
    (articles : List CSVRow) (hne : articles ≠ []) :
    (∀ p ∈ (importArticlesToInstapaper prior (some t) ro articles).2,
       p.total = articles.length ∧ p.current ≤ articles.length ∧
       p.percentage = some (round ((p.current : ℚ) / (p.total : ℚ) * 100)) ∧
       0 ≤ round ((p.current : ℚ) / (p.total : ℚ) * 100) ∧
       round ((p.current : ℚ) / (p.total : ℚ) * 100) ≤ 100 ∧
       p.isComplete = (p.current == p.total)) ∧
    List.Pairwise (fun x y => x ≤ y)
      ((importArticlesToInstapaper prior (some t) ro articles).2.map
        ImportProgress.current) ∧
    ((importArticlesToInstapaper prior (some t) ro articles).2.map
        ImportProgress.current).getLast? = some articles.length := by
  have hlen : 0 < articles.length := List.length_pos.mpr hne
  obtain ⟨_, hb, hs⟩ := engineRun_spec t ro articles true
  have hpairs := importArticles_pairs prior t ro articles
  simp only [importArticlesToInstapaper]
  rw [hpairs]
  have hcur : (ImportProgress.current ∘ fun p : Nat × Nat => handleProgress p.1 p.2) =
      Prod.fst := rfl
  refine ⟨?_, ?_, ?_⟩
  · intro p hmem
    rcases List.mem_map.mp hmem with ⟨q, hq, rfl⟩
    rcases List.mem_append.mp hq with hin | hin
    · obtain ⟨h1, h2⟩ := hb q hin
      obtain ⟨f1, f2, f3, f4, f5, f6⟩ :=
        handleProgress_spec q.1 q.2 (by omega) (by omega)
      exact ⟨by simpa [handleProgress] using h1, by simp only [handleProgress]; omega, f3, f4, f5, f6⟩
    · rcases List.mem_singleton.mp hin with rfl
      obtain ⟨f1, f2, f3, f4, f5, f6⟩ :=
        handleProgress_spec articles.length articles.length (le_refl _) hlen
      exact ⟨f1, by simp [handleProgress], f3, f4, f5, f6⟩
  · rw [List.map_map, hcur, List.map_append]
    rw [List.pairwise_append]
    refine ⟨hs.imp (fun h => le_of_lt h), by simp, ?_⟩
    intro x hx y hy
    rcases List.mem_map.mp hx with ⟨q, hqmem, rfl⟩
    obtain ⟨_, h2⟩ := hb q hqmem
    simp only [List.map_cons, List.map_nil, List.mem_singleton] at hy
    subst hy
    omega
  · rw [List.map_map, hcur, List.map_append]
    simp [List.getLast?_concat]

theorem C9_progress_witness :
    (((importArticlesToInstapaper none (some ⟨"tk", "ts"⟩)
        (fun _ => RowOutcome.normal (fun _ => AddOutcome.ok true))
        [CSVRow.mk "" "http://x.com" "" "" ""]).2).map
        ImportProgress.current).getLast? = some 1 ∧
    List.Pairwise (fun x y => x ≤ y)
      (((importArticlesToInstapaper none (some ⟨"tk", "ts"⟩)
          (fun _ => RowOutcome.normal (fun _ => AddOutcome.ok true))
          [CSVRow.mk "" "http://x.com" "" "" ""]).2).map ImportProgress.current) := by
  have h := C9_progress none ⟨"tk", "ts"⟩
    (fun _ => RowOutcome.normal (fun _ => AddOutcome.ok true))
    [CSVRow.mk "" "http://x.com" "" "" ""] (by simp)
  exact ⟨by simpa using h.2.2, h.2.1⟩

end Insta
